import Mathlib

set_option maxHeartbeats 1600000

namespace Ewah

/-- Go `^uint64(0)`: the all-ones 64-bit word (constant `allones` in the source). -/
def allones : Nat := 2 ^ 64 - 1

/-- Go `^uint32(0) >> 1` (constant `maxUint31` in the source, the largest 31-bit value). -/
def maxUint31 : Nat := (2 ^ 32 - 1) >>> 1

/-- Go conversion `uint64(x)` applied to a signed 64-bit integer: two's-complement truncation. -/
def u64 (x : Int) : Nat := (x % (2 ^ 64 : Int)).toNat

/-- Go conversion `uint32(x)` applied to a signed integer: truncation modulo `2^32`. -/
def u32 (x : Int) : Nat := (x % (2 ^ 32 : Int)).toNat

/-- Go subtraction `a - b` on `uint64` operands (wraps modulo `2^64`). -/
def sub64 (a b : Nat) : Nat := (2 ^ 64 + a - b) % 2 ^ 64

/-- Go subtraction `a - b` on `uint32` operands (wraps modulo `2^32`). -/
def sub32 (a b : Nat) : Nat := (2 ^ 32 + a - b) % 2 ^ 32

/-- Go left shift `x << n` on `uint64`: a shift count of 64 or more gives zero. -/
def shl64 (x n : Nat) : Nat := if n < 64 then (x <<< n) % 2 ^ 64 else 0

/-- Source constant `bmask = uint64(1) << 63`. -/
def bmask : Nat := 1 <<< 63

/-- Source constant `kmask = ^uint64(0) >> 32 << 31`. -/
def kmask : Nat := ((2 ^ 64 - 1) >>> 32) <<< 31

/-- Source constant `lmask = ^uint64(0) >> 33`. -/
def lmask : Nat := (2 ^ 64 - 1) >>> 33

/-- Go `newRlw(b, k, l)`: pack repeated bit, run count and literal count into one word
(`k` and `l` are `uint32` arguments, hence reduced modulo `2^32`). -/
def newRlw (b : Bool) (k l : Nat) : Nat :=
  ((if b then 1 else 0) <<< 63) ||| ((k % 2 ^ 32) <<< 31) ||| (l % 2 ^ 32)

/-- Method `rlw.b()`. -/
def rlwB (r : Nat) : Bool := (r &&& bmask) >>> 63 != 0

/-- Method `rlw.k()`. -/
def rlwK (r : Nat) : Nat := (r &&& kmask) >>> 31

/-- Method `rlw.l()`. -/
def rlwL (r : Nat) : Nat := r &&& lmask

/-- Method `rlw.setk(k)` (Go `^kmask` is the complement within 64 bits). -/
def setk (r k : Nat) : Nat := (r &&& (allones ^^^ kmask)) ||| ((k % 2 ^ 32) <<< 31)

/-- Method `rlw.setl(l)`. -/
def setl (r l : Nat) : Nat := (r &&& (allones ^^^ lmask)) ||| (l % 2 ^ 32)

/-- Go `setbit(word, idx)`: `*word |= uint64(1) << (64 - idx - 1)`, with the shift count
computed in wrapping `uint64` arithmetic. -/
def setbit (word idx : Nat) : Nat := word ||| shl64 1 (sub64 (sub64 64 idx) 1)

/-- The `Bitmap` struct: `n` is the bit count (`int64`), `w` the `uint64` word sequence,
`lastrlw` the index of the active RLW (`int`, `-1` when none). -/
structure Bitmap where
  n : Int
  w : List Nat
  lastrlw : Int
deriving DecidableEq

/-- Go `New()`. -/
def New : Bitmap := ⟨0, [], -1⟩

/-- Method `size()`: allocated bit capacity (Go `/` and `%` truncate toward zero). -/
def size (b : Bitmap) : Int :=
  let bn := b.n.tdiv 64 * 64
  if b.n.tmod 64 ≠ 0 then bn + 64 else bn

/-- The error `ErrInvalidBitSet` returned by `Set`. -/
inductive BitmapError where
  | invalidBitSet
deriving DecidableEq

/-- Method `Set(pos)`, translated statement by statement from the source.  The result pair
is the bitmap after the call (Go mutates the receiver) together with the returned error. -/
def Set (b : Bitmap) (pos : Int) : Bitmap × Option BitmapError :=
  if b.n > pos then (b, some .invalidBitSet)
  else
    let b1 : Bitmap := if b.lastrlw < 0 then ⟨b.n, b.w ++ [newRlw false 0 0], 0⟩ else b
    let last : Nat := b1.w.length - 1
    let r0 : Nat := b1.w.getD b1.lastrlw.toNat 0
    let idx : Nat := u64 (pos.tmod 64)
    let bn : Int := size b1
    if bn > pos then
      let w1 := b1.w.set last (setbit (b1.w.getD last 0) idx)
      if w1.getD last 0 = allones then
        if rlwB r0 = true ∧ rlwL r0 = 1 ∧ rlwK r0 < 2 ^ 32 - 1 then
          let r1 := setl (setk r0 ((rlwK r0 + 1) % 2 ^ 32)) 0
          (⟨pos + 1, (w1.set b1.lastrlw.toNat r1).take last, b1.lastrlw⟩, none)
        else
          let r1 := setl r0 (sub32 (rlwL r0) 1)
          (⟨pos + 1, (w1.set last (newRlw true 1 0)).set b1.lastrlw.toNat r1, (last : Int)⟩,
            none)
      else (⟨pos + 1, w1, b1.lastrlw⟩, none)
    else
      let k : Int := (pos - bn).tdiv 64
      let literal : Nat := setbit 0 idx
      if k = 0 ∧ (rlwL r0 + 1) % 2 ^ 32 ≤ maxUint31 then
        let r1 := setl r0 ((rlwL r0 + 1) % 2 ^ 32)
        (⟨pos + 1, b1.w.set b1.lastrlw.toNat r1 ++ [literal], b1.lastrlw⟩, none)
      else if 0 < k ∧ (rlwK r0 : Int) + k ≤ 2 ^ 32 - 1 then
        let r1 := setl (setk r0 ((rlwK r0 + u32 k) % 2 ^ 32)) ((rlwL r0 + 1) % 2 ^ 32)
        (⟨pos + 1, b1.w.set b1.lastrlw.toNat r1 ++ [literal], b1.lastrlw⟩, none)
      else
        let w2 := b1.w ++ [newRlw false (u32 (k - (2 ^ 32 - 1) - 1)) 1]
        let w3 := w2.set b1.lastrlw.toNat r0
        (⟨pos + 1, w3 ++ [literal], ((w2.length - 1 : Nat) : Int)⟩, none)

/-- Inner loop of `Get`: scans the `rem` remaining literal words of the current block,
starting at literal number `j` of the RLW at index `i`.  Returns the located bit, or
`none` together with the advanced bit offset when the loop runs to completion. -/
def getInner (w : List Nat) (pos : Int) (acc : Int) (i j : Nat) (rem : Nat) :
    Option Bool × Int :=
  match rem with
  | 0 => (none, acc)
  | rem + 1 =>
    if pos < acc + 64 then
      let wd := w.getD (i + j) 0
      let mask := shl64 1 (sub64 63 (u64 (pos - acc)))
      (some (wd &&& mask != 0), acc)
    else getInner w pos (acc + 64) i (j + 1) rem

/-- Outer loop of `Get`, scanning block by block.  `fuel` bounds the number of loop
iterations; the loop index grows by at least one per iteration, so `w.length` fuel is
enough to reproduce the Go loop exactly. -/
def getLoop (w : List Nat) (pos : Int) : Nat → Int → Nat → Bool
  | 0, _, _ => false
  | fuel + 1, acc, i =>
    if i < w.length then
      let word := w.getD i 0
      let kb : Int := (rlwK word : Int) * 64
      if pos < acc + kb then rlwB word
      else
        let acc2 := acc + kb
        let l : Nat := rlwL word
        if 0 < l ∧ pos < acc2 + (l : Int) * 64 then
          match getInner w pos acc2 i 1 l with
          | (some bit, _) => bit
          | (none, acc3) => getLoop w pos fuel acc3 (i + l + 1)
        else getLoop w pos fuel (acc2 + (l : Int) * 64) (i + l + 1)
    else false

/-- Method `Get(pos)`. -/
def Get (b : Bitmap) (pos : Int) : Bool :=
  if pos ≥ b.n then false else getLoop b.w pos b.w.length 0 0

/-- Method `Bits()`: Go `uint32(b.n)`. -/
def Bits (b : Bitmap) : Nat := u32 b.n

/-- The caller-chosen endianness (`binary.BigEndian` / `binary.LittleEndian`). -/
inductive ByteOrder where
  | be
  | le
deriving DecidableEq

/-- Go `binary.ByteOrder.PutUint32`. -/
def putU32 (o : ByteOrder) (v : Nat) : List Nat :=
  match o with
  | .be => [v / 2 ^ 24 % 256, v / 2 ^ 16 % 256, v / 2 ^ 8 % 256, v % 256]
  | .le => [v % 256, v / 2 ^ 8 % 256, v / 2 ^ 16 % 256, v / 2 ^ 24 % 256]

/-- Go `binary.ByteOrder.PutUint64`. -/
def putU64 (o : ByteOrder) (v : Nat) : List Nat :=
  match o with
  | .be => [v / 2 ^ 56 % 256, v / 2 ^ 48 % 256, v / 2 ^ 40 % 256, v / 2 ^ 32 % 256,
            v / 2 ^ 24 % 256, v / 2 ^ 16 % 256, v / 2 ^ 8 % 256, v % 256]
  | .le => [v % 256, v / 2 ^ 8 % 256, v / 2 ^ 16 % 256, v / 2 ^ 24 % 256,
            v / 2 ^ 32 % 256, v / 2 ^ 40 % 256, v / 2 ^ 48 % 256, v / 2 ^ 56 % 256]

/-- Source `readUint32`: consume 4 bytes from the stream, or fail on a short read. -/
def getU32 (o : ByteOrder) (bytes : List Nat) : Option (Nat × List Nat) :=
  match bytes with
  | b0 :: b1 :: b2 :: b3 :: rest =>
    some (match o with
      | .be => ((b0 * 2 ^ 8 + b1) * 2 ^ 8 + b2) * 2 ^ 8 + b3
      | .le => ((b3 * 2 ^ 8 + b2) * 2 ^ 8 + b1) * 2 ^ 8 + b0, rest)
  | _ => none

/-- Source `readUint64`: consume 8 bytes from the stream, or fail on a short read. -/
def getU64 (o : ByteOrder) (bytes : List Nat) : Option (Nat × List Nat) :=
  match bytes with
  | b0 :: b1 :: b2 :: b3 :: b4 :: b5 :: b6 :: b7 :: rest =>
    some (match o with
      | .be => ((((((b0 * 2 ^ 8 + b1) * 2 ^ 8 + b2) * 2 ^ 8 + b3) * 2 ^ 8 + b4) * 2 ^ 8 + b5)
                  * 2 ^ 8 + b6) * 2 ^ 8 + b7
      | .le => ((((((b7 * 2 ^ 8 + b6) * 2 ^ 8 + b5) * 2 ^ 8 + b4) * 2 ^ 8 + b3) * 2 ^ 8 + b2)
                  * 2 ^ 8 + b1) * 2 ^ 8 + b0, rest)
  | _ => none

/-- The word-reading loop of `FromReader`. -/
def readWords (o : ByteOrder) : Nat → List Nat → Option (List Nat × List Nat)
  | 0, bytes => some ([], bytes)
  | cnt + 1, bytes => do
    let (wd, rest) ← getU64 o bytes
    let (ws, rest2) ← readWords o cnt rest
    some (wd :: ws, rest2)

/-- Method `Write`: the byte stream emitted for a bitmap (bit count, word count, words,
active RLW index, each truncated to its on-wire width as in the source). -/
def Write (o : ByteOrder) (b : Bitmap) : List Nat :=
  putU32 o (Bits b) ++ putU32 o (b.w.length % 2 ^ 32) ++
    (b.w.map (putU64 o)).flatten ++ putU32 o (u32 b.lastrlw)

/-- Source `FromBytes` / `FromReader`: parse a bitmap from bytes (trailing bytes ignored,
as the Go reader stops after the last header field). -/
def FromBytes (o : ByteOrder) (bytes : List Nat) : Option Bitmap := do
  let (bits, r1) ← getU32 o bytes
  let (wc, r2) ← getU32 o r1
  let (ws, r3) ← readWords o wc r2
  let (lr, _) ← getU32 o r3
  some ⟨(bits : Int), ws, (lr : Int)⟩

/-- Bitmaps reachable from `New()` by successful `Set` calls. -/
inductive Reachable : Bitmap → Prop where
  | empty : Reachable New
  | step {b b' : Bitmap} {pos : Int} : Reachable b → Set b pos = (b', none) → Reachable b'

/-- The block traversal of the specification: starting at word index 0, repeatedly step
over one RLW plus its `literal_count` literal words.  Returns the index of the final
block's RLW when the traversal covers the word sequence exactly, and `none` when a step
would overrun the end of the array. -/
def walkIdx : Nat → List Nat → Nat → Option Nat
  | 0, _, _ => none
  | _, [], _ => none
  | fuel + 1, r :: rest, base =>
    let l := rlwL r
    if rest.length = l then some base
    else if rest.length < l then none
    else walkIdx fuel (rest.drop l) (base + 1 + l)

/-- Index of the last block's RLW found by exact block traversal from index 0. -/
def lastIdx (ws : List Nat) : Option Nat := walkIdx ws.length ws 0

/-- Conjunction of one RLW plus its literals covering a word list exactly is what
`walkIdx` certifies; this section develops arithmetic characterisations of the codec. -/
lemma and_shifted_mask (r a b : Nat) :
    r &&& ((2 ^ a - 1) <<< b) = r / 2 ^ b % 2 ^ a * 2 ^ b := by
  apply Nat.eq_of_testBit_eq
  intro i
  rw [← Nat.shiftLeft_eq, ← Nat.shiftRight_eq_div_pow]
  by_cases hb : b ≤ i
  · simp only [Nat.testBit_and, Nat.testBit_shiftLeft, Nat.testBit_mod_two_pow,
      Nat.testBit_shiftRight, Nat.testBit_two_pow_sub_one, ge_iff_le, hb, decide_True,
      Bool.true_and]
    rw [Nat.add_sub_cancel' hb]
    exact Bool.and_comm _ _
  · simp only [Nat.testBit_and, Nat.testBit_shiftLeft, ge_iff_le, hb, decide_False,
      Bool.false_and, Bool.and_false]

lemma lmask_eq : lmask = 2 ^ 31 - 1 := by decide

lemma kmask_eq : kmask = (2 ^ 32 - 1) <<< 31 := by decide

lemma bmask_eq : bmask = (2 ^ 1 - 1) <<< 63 := by decide

lemma rlwL_eq (r : Nat) : rlwL r = r % 2 ^ 31 := by
  rw [rlwL, lmask_eq, Nat.and_pow_two_sub_one_eq_mod]

lemma rlwK_eq (r : Nat) : rlwK r = r / 2 ^ 31 % 2 ^ 32 := by
  rw [rlwK, kmask_eq, and_shifted_mask, Nat.shiftRight_eq_div_pow]
  omega

lemma rlwB_eq (r : Nat) : rlwB r = decide (r / 2 ^ 63 % 2 = 1) := by
  rw [rlwB, bmask_eq, and_shifted_mask, Nat.shiftRight_eq_div_pow]
  have h : r / 2 ^ 63 % 2 ^ 1 * 2 ^ 63 / 2 ^ 63 = r / 2 ^ 63 % 2 := by omega
  rw [h]
  rcases Nat.mod_two_eq_zero_or_one (r / 2 ^ 63) with h2 | h2 <;> rw [h2] <;> rfl

lemma rlwK_lt (r : Nat) : rlwK r < 2 ^ 32 := by
  rw [rlwK_eq]; exact Nat.mod_lt _ (by norm_num)

lemma rlwL_lt (r : Nat) : rlwL r < 2 ^ 31 := by
  rw [rlwL_eq]; exact Nat.mod_lt _ (by norm_num)

lemma newRlw_val (b : Bool) (k l : Nat) (hk : k < 2 ^ 32) (hl : l < 2 ^ 31) :
    newRlw b k l = (if b then 1 else 0) * 2 ^ 63 + k * 2 ^ 31 + l := by
  have e1 : ((if b then (1 : Nat) else 0)) <<< 63 = 2 ^ 63 * (if b then 1 else 0) := by
    rw [Nat.shiftLeft_eq, Nat.mul_comm]
  have e2 : (k % 2 ^ 32) <<< 31 = 2 ^ 31 * k := by
    rw [Nat.shiftLeft_eq, Nat.mod_eq_of_lt hk, Nat.mul_comm]
  have e3 : l % 2 ^ 32 = l := Nat.mod_eq_of_lt (lt_trans hl (by norm_num))
  have h1 : (2 ^ 31 : Nat) * k ||| l = 2 ^ 31 * k + l := (Nat.mul_add_lt_is_or hl k).symm
  have hs : (2 ^ 31 : Nat) * k + l < 2 ^ 63 := by
    have : (2 ^ 31 : Nat) * k ≤ 2 ^ 31 * (2 ^ 32 - 1) := Nat.mul_le_mul_left _ (by omega)
    omega
  have h2 : (2 ^ 63 : Nat) * (if b then 1 else 0) ||| (2 ^ 31 * k + l)
      = 2 ^ 63 * (if b then 1 else 0) + (2 ^ 31 * k + l) :=
    (Nat.mul_add_lt_is_or hs _).symm
  rw [newRlw, e1, e2, e3, Nat.lor_assoc, h1, h2]
  ring

lemma newRlw_lt (b : Bool) (k l : Nat) : newRlw b k l < 2 ^ 64 := by
  apply Nat.or_lt_two_pow
  · apply Nat.or_lt_two_pow
    · cases b <;> decide
    · rw [Nat.shiftLeft_eq]
      have h : k % 2 ^ 32 < 2 ^ 32 := Nat.mod_lt _ (by norm_num)
      omega
  · have h : l % 2 ^ 32 < 2 ^ 32 := Nat.mod_lt _ (by norm_num)
    omega

lemma setk_lt (r k : Nat) : setk r k < 2 ^ 64 := by
  apply Nat.or_lt_two_pow
  · calc r &&& (allones ^^^ kmask) ≤ allones ^^^ kmask := Nat.and_le_right
      _ < 2 ^ 64 := by decide
  · rw [Nat.shiftLeft_eq]
    have h : k % 2 ^ 32 < 2 ^ 32 := Nat.mod_lt _ (by norm_num)
    omega

lemma setl_lt (r l : Nat) : setl r l < 2 ^ 64 := by
  apply Nat.or_lt_two_pow
  · calc r &&& (allones ^^^ lmask) ≤ allones ^^^ lmask := Nat.and_le_right
      _ < 2 ^ 64 := by decide
  · have : l % 2 ^ 32 < 2 ^ 32 := Nat.mod_lt _ (by norm_num)
    omega

lemma and_bmask_of_lt {x : Nat} (h : x < 2 ^ 63) : x &&& bmask = 0 := by
  rw [bmask_eq, and_shifted_mask, Nat.div_eq_of_lt h]
  simp

lemma and_kmask_of_lt {x : Nat} (h : x < 2 ^ 31) : x &&& kmask = 0 := by
  rw [kmask_eq, and_shifted_mask, Nat.div_eq_of_lt h]
  simp

lemma shiftLeft31_and_lmask (x : Nat) : (x <<< 31) &&& lmask = 0 := by
  rw [lmask_eq, Nat.and_pow_two_sub_one_eq_mod, Nat.shiftLeft_eq, Nat.mul_mod_left]

lemma rlwB_setk (r k : Nat) : rlwB (setk r k) = rlwB r := by
  simp only [rlwB, setk]
  rw [Nat.and_distrib_right, Nat.and_assoc,
    show (allones ^^^ kmask) &&& bmask = bmask from by decide,
    and_bmask_of_lt (x := (k % 2 ^ 32) <<< 31) (by rw [Nat.shiftLeft_eq]; omega),
    Nat.or_zero]

lemma rlwL_setk (r k : Nat) : rlwL (setk r k) = rlwL r := by
  simp only [rlwL, setk]
  rw [Nat.and_distrib_right, Nat.and_assoc,
    show (allones ^^^ kmask) &&& lmask = lmask from by decide,
    shiftLeft31_and_lmask, Nat.or_zero]

lemma rlwK_setk (r k : Nat) (hk : k < 2 ^ 32) : rlwK (setk r k) = k := by
  simp only [rlwK, setk]
  rw [Nat.and_distrib_right, Nat.and_assoc,
    show (allones ^^^ kmask) &&& kmask = 0 from by decide,
    Nat.and_zero, Nat.zero_or, Nat.shiftLeft_eq, Nat.mod_eq_of_lt hk, kmask_eq,
    and_shifted_mask, Nat.shiftRight_eq_div_pow]
  omega

lemma rlwB_setl (r l : Nat) : rlwB (setl r l) = rlwB r := by
  simp only [rlwB, setl]
  rw [Nat.and_distrib_right, Nat.and_assoc,
    show (allones ^^^ lmask) &&& bmask = bmask from by decide,
    and_bmask_of_lt (x := l % 2 ^ 32) (by omega), Nat.or_zero]

lemma rlwK_setl (r l : Nat) (hl : l < 2 ^ 31) : rlwK (setl r l) = rlwK r := by
  simp only [rlwK, setl]
  rw [Nat.and_distrib_right, Nat.and_assoc,
    show (allones ^^^ lmask) &&& kmask = kmask from by decide,
    Nat.mod_eq_of_lt (lt_trans hl (by norm_num)), and_kmask_of_lt hl, Nat.or_zero]

lemma rlwL_setl (r l : Nat) (hl : l < 2 ^ 31) : rlwL (setl r l) = l := by
  simp only [rlwL, setl]
  rw [Nat.and_distrib_right, Nat.and_assoc,
    show (allones ^^^ lmask) &&& lmask = 0 from by decide,
    Nat.and_zero, Nat.zero_or, lmask_eq, Nat.and_pow_two_sub_one_eq_mod]
  omega

lemma rlwL_newRlw (b : Bool) (k l : Nat) (hk : k < 2 ^ 32) (hl : l < 2 ^ 31) :
    rlwL (newRlw b k l) = l := by
  rw [rlwL_eq, newRlw_val b k l hk hl]
  cases b <;> simp <;> omega

lemma rlwK_newRlw (b : Bool) (k l : Nat) (hk : k < 2 ^ 32) (hl : l < 2 ^ 31) :
    rlwK (newRlw b k l) = k := by
  rw [rlwK_eq, newRlw_val b k l hk hl]
  cases b <;> simp <;> omega

lemma rlwB_newRlw (b : Bool) (k l : Nat) (hk : k < 2 ^ 32) (hl : l < 2 ^ 31) :
    rlwB (newRlw b k l) = b := by
  rw [rlwB_eq, newRlw_val b k l hk hl]
  have h1 : k * 2 ^ 31 + l < 2 ^ 63 := by omega
  cases b
  · have h2 : ((0 : Nat) * 2 ^ 63 + k * 2 ^ 31 + l) / 2 ^ 63 % 2 = 0 := by omega
    rw [if_neg Bool.false_ne_true, h2]
    rfl
  · have h2 : ((1 : Nat) * 2 ^ 63 + k * 2 ^ 31 + l) / 2 ^ 63 % 2 = 1 := by omega
    rw [if_pos rfl, h2]
    rfl

lemma repack (r : Nat) (hr : r < 2 ^ 64) : newRlw (rlwB r) (rlwK r) (rlwL r) = r := by
  rw [newRlw_val _ _ _ (rlwK_lt r) (rlwL_lt r), rlwK_eq, rlwL_eq, rlwB_eq]
  by_cases h : r / 2 ^ 63 % 2 = 1
  · rw [if_pos (by rw [decide_eq_true_eq]; exact h)]
    omega
  · rw [if_neg (by rw [decide_eq_true_eq]; exact h)]
    omega

lemma setl_as_newRlw (r l : Nat) (hl : l < 2 ^ 31) :
    setl r l = newRlw (rlwB r) (rlwK r) l := by
  have h := repack (setl r l) (setl_lt r l)
  rw [rlwB_setl, rlwK_setl r l hl, rlwL_setl r l hl] at h
  exact h.symm

lemma setl_setk_as_newRlw (r k l : Nat) (hk : k < 2 ^ 32) (hl : l < 2 ^ 31) :
    setl (setk r k) l = newRlw (rlwB r) k l := by
  rw [setl_as_newRlw (setk r k) l hl, rlwB_setk, rlwK_setk r k hk]

lemma set_ok_of_le {b : Bitmap} {pos : Int} (h : b.n ≤ pos) :
    ∃ w lr, Set b pos = (⟨pos + 1, w, lr⟩, none) := by
  unfold Set
  rw [if_neg (by omega)]
  dsimp only
  repeat' split
  all_goals exact ⟨_, _, rfl⟩

/-- C1: setting a bit at a position `2^38` (a gap of `2^32` sixty-four-bit chunks) succeeds,
but reading the same position back yields `false`: the overflow branch of `Set` records the
gap's length modulo `2^32`, silently losing `2^32` chunks, so the write-then-read identity
of the specification fails on this reachable bitmap. -/
theorem get_after_set_huge_position_false :
    (Set New (2 ^ 38)).2 = none ∧
    ((2 : Int) ^ 38) < (Set New (2 ^ 38)).1.n ∧
    Get ((Set New (2 ^ 38)).1) (2 ^ 38) = false := by decide

/-- C3: `Set(pos)` returns `ErrInvalidBitSet` exactly when `pos` is below the current bit
count, leaves the bitmap untouched in that case, succeeds otherwise with the bit count
becoming `pos + 1`, and consequently a successful `Set` at `pos` makes any later `Set` at a
smaller position fail.  The well-formedness hypothesis (active index `-1` or in range)
matches every bitmap the API can produce; on other states the Go code panics on the index
access instead of returning. -/
theorem set_out_of_order_contract (b : Bitmap) (pos : Int)
    (_hwf : b.lastrlw < 0 ∨ b.lastrlw.toNat < b.w.length) :
    ((Set b pos).2 = some .invalidBitSet ↔ pos < b.n)
    ∧ (pos < b.n → (Set b pos).1 = b)
    ∧ (b.n ≤ pos → (Set b pos).2 = none ∧ (Set b pos).1.n = pos + 1)
    ∧ (∀ p1 b2, p1 < pos → Set b pos = (b2, none) → (Set b2 p1).2 = some .invalidBitSet) := by
  have hok : b.n ≤ pos → (Set b pos).2 = none ∧ (Set b pos).1.n = pos + 1 := by
    intro h
    obtain ⟨w, lr, hw⟩ := set_ok_of_le h
    rw [hw]
    exact ⟨rfl, rfl⟩
  have herr : pos < b.n → Set b pos = (b, some .invalidBitSet) := by
    intro h
    unfold Set
    rw [if_pos (by omega)]
  refine ⟨⟨fun h => ?_, fun h => by rw [herr h]⟩, fun h => by rw [herr h],
    hok, fun p1 b2 hlt hset => ?_⟩
  · by_contra hc
    rw [(hok (by omega)).1] at h
    exact Option.noConfusion h
  · have hle : b.n ≤ pos := by
      by_contra hc
      rw [herr (by omega)] at hset
      exact Option.noConfusion (congrArg Prod.snd hset)
    have hn2 : b2.n = pos + 1 := by
      have := (hok hle).2
      rw [hset] at this
      exact this
    have : Set b2 p1 = (b2, some .invalidBitSet) := by
      unfold Set
      rw [if_pos (by omega)]
    rw [this]

/-- Witness for C3 at the empty bitmap and position 0. -/
theorem set_out_of_order_contract_witness :
    (New.lastrlw < 0 ∨ New.lastrlw.toNat < New.w.length) ∧
    ((Set New 0).2 = some .invalidBitSet ↔ (0 : Int) < New.n) :=
  ⟨Or.inl (by decide), (set_out_of_order_contract New 0 (Or.inl (by decide))).1⟩

/-- C8: `Get(pos)` immediately returns `false` for any position at or above the bit
count, with no error. -/
theorem get_past_bit_count_false (b : Bitmap) (pos : Int) (h : b.n ≤ pos) :
    Get b pos = false := by
  unfold Get
  rw [if_pos (by omega)]

/-- Witness for C8. -/
theorem get_past_bit_count_false_witness : New.n ≤ 3 ∧ Get New 3 = false :=
  ⟨by decide, get_past_bit_count_false New 3 (by decide)⟩

/-- C9: unpacking the word packed from `(b, k, l)` returns exactly `(b, k, l)` whenever
`k` fits in 32 bits and `l` fits in 31 bits; `setk` preserves the repeated bit and the
literal count of any 64-bit word, and `setl` preserves the repeated bit and the run
count. -/
theorem rlw_codec_contract :
    (∀ (bit : Bool) (k l : Nat), k ≤ 2 ^ 32 - 1 → l ≤ 2 ^ 31 - 1 →
      rlwB (newRlw bit k l) = bit ∧ rlwK (newRlw bit k l) = k ∧ rlwL (newRlw bit k l) = l)
    ∧ (∀ (r k : Nat), r < 2 ^ 64 → k ≤ 2 ^ 32 - 1 →
      rlwB (setk r k) = rlwB r ∧ rlwL (setk r k) = rlwL r)
    ∧ (∀ (r l : Nat), r < 2 ^ 64 → l ≤ 2 ^ 31 - 1 →
      rlwB (setl r l) = rlwB r ∧ rlwK (setl r l) = rlwK r) := by
  refine ⟨fun bit k l hk hl => ?_, fun r k hr hk => ?_, fun r l hr hl => ?_⟩
  · exact ⟨rlwB_newRlw _ _ _ (by omega) (by omega), rlwK_newRlw _ _ _ (by omega) (by omega),
      rlwL_newRlw _ _ _ (by omega) (by omega)⟩
  · exact ⟨rlwB_setk r k, rlwL_setk r k⟩
  · exact ⟨rlwB_setl r l, rlwK_setl r l (by omega)⟩

/-- Witness for C9 at concrete field values and words. -/
theorem rlw_codec_contract_witness :
    ((7 : Nat) ≤ 2 ^ 32 - 1 ∧ (3 : Nat) ≤ 2 ^ 31 - 1 ∧ (12345 : Nat) < 2 ^ 64) ∧
    (rlwB (newRlw true 7 3) = true ∧ rlwK (newRlw true 7 3) = 7 ∧ rlwL (newRlw true 7 3) = 3) ∧
    (rlwB (setk 12345 9) = rlwB 12345 ∧ rlwL (setk 12345 9) = rlwL 12345) ∧
    (rlwB (setl 12345 4) = rlwB 12345 ∧ rlwK (setl 12345 4) = rlwK 12345) :=
  ⟨⟨by norm_num, by norm_num, by norm_num⟩,
    rlw_codec_contract.1 true 7 3 (by norm_num) (by norm_num),
    rlw_codec_contract.2.1 12345 9 (by norm_num) (by norm_num),
    rlw_codec_contract.2.2 12345 4 (by norm_num) (by norm_num)⟩

/-- C10: `Bits` returns the stored bit count truncated modulo `2^32`, the serializer
emits exactly this truncated value as the on-wire bit count, and a bit count above
`2^32 - 1` therefore wraps around (e.g. `2^32 + 5` is reported as `5`). -/
theorem bits_truncated_mod_2_32 (o : ByteOrder) (b : Bitmap) :
    Bits b = (b.n % (2 ^ 32 : Int)).toNat ∧
    (Write o b).take 4 = putU32 o (Bits b) ∧
    Bits ⟨(2 : Int) ^ 32 + 5, [], -1⟩ = 5 := by
  refine ⟨rfl, ?_, by decide⟩
  unfold Write
  have hlen : (putU32 o (Bits b)).length = 4 := by cases o <;> rfl
  rw [List.append_assoc, List.append_assoc, ← hlen, List.take_left]

lemma getU32_putU32 (o : ByteOrder) (v : Nat) (hv : v < 2 ^ 32) (rest : List Nat) :
    getU32 o (putU32 o v ++ rest) = some (v, rest) := by
  cases o <;>
    simp only [putU32, getU32, List.cons_append, List.nil_append, Option.some.injEq,
      Prod.mk.injEq] <;>
    exact ⟨by omega, trivial⟩

lemma getU64_putU64 (o : ByteOrder) (v : Nat) (hv : v < 2 ^ 64) (rest : List Nat) :
    getU64 o (putU64 o v ++ rest) = some (v, rest) := by
  cases o <;>
    simp only [putU64, getU64, List.cons_append, List.nil_append, Option.some.injEq,
      Prod.mk.injEq] <;>
    exact ⟨by omega, trivial⟩

lemma readWords_put (o : ByteOrder) (ws rest : List Nat) (hws : ∀ x ∈ ws, x < 2 ^ 64) :
    readWords o ws.length ((ws.map (putU64 o)).flatten ++ rest) = some (ws, rest) := by
  induction ws with
  | nil => rfl
  | cons w ws ih =>
    have hw : w < 2 ^ 64 := hws w (by simp)
    have hws2 : ∀ x ∈ ws, x < 2 ^ 64 := fun x hx => hws x (by simp [hx])
    simp only [List.map_cons, List.length_cons, List.flatten_cons, List.append_assoc]
    rw [readWords, getU64_putU64 o w hw]
    simp only [Option.bind_eq_bind, Option.some_bind]
    rw [ih hws2]
    rfl

/-- C2 counterexample: the empty bitmap (a valid empty sequence of `Set` calls) does not
round-trip: its active RLW index `-1` is serialized as the unsigned value `2^32 - 1` and
deserialized as `4294967295`, so the reconstructed bitmap differs field-for-field. -/
theorem empty_bitmap_roundtrip_fails :
    FromBytes .be (Write .be New) = some ⟨0, [], 4294967295⟩ ∧
    (⟨0, [], 4294967295⟩ : Bitmap) ≠ New := by decide

/-- C2 (amended): serializing then deserializing reproduces the bitmap field-for-field
whenever each serialized field fits its on-wire width: the bit count and the active RLW
index are nonnegative and below `2^32`, fewer than `2^32` words, each word below `2^64`.
All bitmaps built by a nonempty ascending `Set` sequence staying below bit position `2^32`
satisfy these bounds; the empty bitmap (active index `-1`) does not. -/
theorem write_read_roundtrip (o : ByteOrder) (b : Bitmap)
    (h0 : 0 ≤ b.n) (h1 : b.n < 2 ^ 32) (h2 : 0 ≤ b.lastrlw) (h3 : b.lastrlw < 2 ^ 32)
    (h4 : b.w.length < 2 ^ 32) (h5 : ∀ x ∈ b.w, x < 2 ^ 64) :
    FromBytes o (Write o b) = some b := by
  obtain ⟨n, w, lr⟩ := b
  simp only at h0 h1 h2 h3 h4 h5
  have e1 : u32 n < 2 ^ 32 := by unfold u32; omega
  have e2 : w.length % 2 ^ 32 = w.length := Nat.mod_eq_of_lt h4
  have e3 : u32 lr < 2 ^ 32 := by unfold u32; omega
  unfold Write FromBytes Bits
  simp only
  rw [List.append_assoc, List.append_assoc, getU32_putU32 o (u32 n) e1]
  simp only [Option.bind_eq_bind, Option.some_bind]
  rw [getU32_putU32 o (w.length % 2 ^ 32) (by omega)]
  simp only [Option.bind_eq_bind, Option.some_bind]
  rw [e2, readWords_put o w (putU32 o (u32 lr)) h5]
  simp only [Option.bind_eq_bind, Option.some_bind]
  rw [show putU32 o (u32 lr) = putU32 o (u32 lr) ++ [] from (List.append_nil _).symm,
    getU32_putU32 o (u32 lr) e3]
  simp only [Option.bind_eq_bind, Option.some_bind, Option.some.injEq, Bitmap.mk.injEq]
  refine ⟨?_, trivial, ?_⟩ <;> unfold u32 <;> omega

/-- Witness for the amended C2 at a concrete one-block bitmap. -/
theorem write_read_roundtrip_witness :
    ((0 : Int) ≤ (⟨1, [newRlw false 0 1, 2 ^ 63], 0⟩ : Bitmap).n ∧
     (⟨1, [newRlw false 0 1, 2 ^ 63], 0⟩ : Bitmap).n < 2 ^ 32 ∧
     (0 : Int) ≤ (⟨1, [newRlw false 0 1, 2 ^ 63], 0⟩ : Bitmap).lastrlw ∧
     (⟨1, [newRlw false 0 1, 2 ^ 63], 0⟩ : Bitmap).lastrlw < 2 ^ 32 ∧
     (⟨1, [newRlw false 0 1, 2 ^ 63], 0⟩ : Bitmap).w.length < 2 ^ 32) ∧
    FromBytes .be (Write .be ⟨1, [newRlw false 0 1, 2 ^ 63], 0⟩)
      = some ⟨1, [newRlw false 0 1, 2 ^ 63], 0⟩ :=
  ⟨⟨by decide, by decide, by decide, by decide, by decide⟩,
    write_read_roundtrip .be ⟨1, [newRlw false 0 1, 2 ^ 63], 0⟩ (by decide) (by decide)
      (by decide) (by decide) (by decide) (by decide)⟩

lemma set_getD_self {α : Type} (l : List α) (i : Nat) (d : α) (h : i < l.length) :
    l.set i (l.getD i d) = l := by
  induction l generalizing i with
  | nil => simp at h
  | cons x xs ih =>
    cases i with
    | zero => rfl
    | succ j =>
      simp only [List.set_cons_succ, List.getD_cons_succ]
      rw [ih j (by simpa using h)]

/-- The pre-state of the source's own `run_count`-overflow test: one RLW with `k` at its
maximum `2^32 - 1` and no literals. -/
def bOverK : Bitmap := ⟨(2 ^ 32 - 1) * 64, [newRlw false (2 ^ 32 - 1) 0], 0⟩

/-- C6 counterexample: at the `run_count`-overflow branch with a gap of `k = 1` chunks the
appended RLW has `run_count = 1` (the full remaining gap, as the source's test expects),
not `k - (2^32 - 1) = 0` as the claim's formula states. -/
theorem run_overflow_formula_counterexample :
    (Set bOverK ((2 ^ 32 - 1) * 64 + 127)).2 = none ∧
    ((((2 : Int) ^ 32 - 1) * 64 + 127) - size bOverK).tdiv 64 = 1 ∧
    rlwK ((Set bOverK ((2 ^ 32 - 1) * 64 + 127)).1.w.getD 1 0) = 1 ∧
    rlwK ((Set bOverK ((2 ^ 32 - 1) * 64 + 127)).1.w.getD 1 0) ≠ 1 - (2 ^ 32 - 1) := by
  decide

/-- C6 (amended): when `Set(pos)` must insert a gap of `k ≥ 1` all-zero chunks and adding
`k` to the active RLW's run count would exceed `2^32 - 1`, the active RLW is closed out
as-is and a new RLW with `run_count = (k - (2^32 - 1) - 1) mod 2^32 = k mod 2^32` (which
is the whole gap `k` whenever `k < 2^32`) and `literal_count = 1` is appended and becomes
the active RLW, followed by the one-bit literal word. -/
theorem run_overflow_appends_remainder_rlw (b : Bitmap) (pos : Int)
    (h2 : 0 ≤ b.lastrlw) (h3 : b.lastrlw.toNat < b.w.length)
    (hn : ¬ b.n > pos) (hcap : ¬ size b > pos)
    (hk : 0 < (pos - size b).tdiv 64)
    (hov : ¬ ((rlwK (b.w.getD b.lastrlw.toNat 0) : Int) + (pos - size b).tdiv 64
      ≤ 2 ^ 32 - 1)) :
    Set b pos =
      (⟨pos + 1,
        b.w ++ [newRlw false (((pos - size b).tdiv 64).toNat % 2 ^ 32) 1,
          setbit 0 (u64 (pos.tmod 64))],
        (b.w.length : Int)⟩, none) ∧
    rlwK (newRlw false (((pos - size b).tdiv 64).toNat % 2 ^ 32) 1)
      = ((pos - size b).tdiv 64).toNat % 2 ^ 32 := by
  have hinit : ¬ b.lastrlw < 0 := by omega
  have hu : u32 ((pos - size b).tdiv 64 - (2 ^ 32 - 1) - 1)
      = ((pos - size b).tdiv 64).toNat % 2 ^ 32 := by
    unfold u32
    omega
  constructor
  · unfold Set
    rw [if_neg hn]
    dsimp only
    rw [if_neg hinit, if_neg hcap, if_neg (fun hc => by omega),
      if_neg (fun hc => hov hc.2), hu]
    rw [List.set_append_left _ _ h3, set_getD_self b.w _ 0 h3]
    simp [List.append_assoc, List.length_append]
  · exact rlwK_newRlw false _ 1 (Nat.mod_lt _ (by norm_num)) (by norm_num)

/-- Witness for the amended C6 at the source test's overflow scenario (`k = 1`, active
run count at maximum). -/
theorem run_overflow_appends_remainder_rlw_witness :
    ((0 : Int) ≤ bOverK.lastrlw ∧ bOverK.lastrlw.toNat < bOverK.w.length ∧
     ¬ bOverK.n > (2 ^ 32 - 1) * 64 + 127 ∧ ¬ size bOverK > (2 ^ 32 - 1) * 64 + 127 ∧
     0 < ((((2 : Int) ^ 32 - 1) * 64 + 127) - size bOverK).tdiv 64 ∧
     ¬ ((rlwK (bOverK.w.getD bOverK.lastrlw.toNat 0) : Int)
        + ((((2 : Int) ^ 32 - 1) * 64 + 127) - size bOverK).tdiv 64 ≤ 2 ^ 32 - 1)) ∧
    Set bOverK ((2 ^ 32 - 1) * 64 + 127) =
      (⟨(2 ^ 32 - 1) * 64 + 127 + 1,
        bOverK.w ++ [newRlw false ((((((2 : Int) ^ 32 - 1) * 64 + 127)
            - size bOverK).tdiv 64).toNat % 2 ^ 32) 1,
          setbit 0 (u64 (((2 ^ 32 - 1) * 64 + 127 : Int).tmod 64))],
        (bOverK.w.length : Int)⟩, none) :=
  ⟨⟨by decide, by decide, by decide, by decide, by decide, by decide⟩,
    (run_overflow_appends_remainder_rlw bOverK ((2 ^ 32 - 1) * 64 + 127) (by decide)
      (by decide) (by decide) (by decide) (by decide) (by decide)).1⟩

lemma getD_set_self {α : Type} (l : List α) (i : Nat) (x d : α) (h : i < l.length) :
    (l.set i x).getD i d = x := by
  induction l generalizing i with
  | nil => simp at h
  | cons y ys ih =>
    cases i with
    | zero => rfl
    | succ j =>
      simp only [List.set_cons_succ, List.getD_cons_succ]
      exact ih j (by simpa using h)

lemma take_set_of_le {α : Type} (l : List α) (i n : Nat) (x : α) (h : n ≤ i) :
    (l.set i x).take n = l.take n := by
  rw [List.set_take, List.set_eq_of_length_le]
  calc (l.take n).length ≤ n := by
        rw [List.length_take]
        exact Nat.min_le_left _ _
    _ ≤ i := h

/-- C7: when a `Set` inside current capacity turns the last literal word into all ones,
then: if the active RLW's repeated bit is 1, its literal count is 1, and its run count is
below the maximum, the literal is dropped, the run count incremented and the literal
count zeroed; otherwise the old RLW's literal count is decremented and the all-ones
literal is replaced in place by a fresh RLW `(bit = 1, run_count = 1, literal_count = 0)`
that becomes the active RLW. -/
theorem all_ones_literal_absorption (b : Bitmap) (pos : Int)
    (h2 : 0 ≤ b.lastrlw) (h3 : b.lastrlw.toNat < b.w.length - 1)
    (hn : ¬ b.n > pos) (hcap : size b > pos)
    (hall : setbit (b.w.getD (b.w.length - 1) 0) (u64 (pos.tmod 64)) = allones)
    (hl1 : 1 ≤ rlwL (b.w.getD b.lastrlw.toNat 0)) :
    ((rlwB (b.w.getD b.lastrlw.toNat 0) = true ∧ rlwL (b.w.getD b.lastrlw.toNat 0) = 1 ∧
        rlwK (b.w.getD b.lastrlw.toNat 0) < 2 ^ 32 - 1) →
      Set b pos = (⟨pos + 1,
        (b.w.set b.lastrlw.toNat
          (newRlw (rlwB (b.w.getD b.lastrlw.toNat 0))
            (rlwK (b.w.getD b.lastrlw.toNat 0) + 1) 0)).take (b.w.length - 1),
        b.lastrlw⟩, none))
    ∧ (¬ (rlwB (b.w.getD b.lastrlw.toNat 0) = true ∧ rlwL (b.w.getD b.lastrlw.toNat 0) = 1 ∧
        rlwK (b.w.getD b.lastrlw.toNat 0) < 2 ^ 32 - 1) →
      Set b pos = (⟨pos + 1,
        (b.w.set b.lastrlw.toNat
          (newRlw (rlwB (b.w.getD b.lastrlw.toNat 0)) (rlwK (b.w.getD b.lastrlw.toNat 0))
            (rlwL (b.w.getD b.lastrlw.toNat 0) - 1))).set (b.w.length - 1)
          (newRlw true 1 0),
        ((b.w.length - 1 : Nat) : Int)⟩, none)) := by
  have hinit : ¬ b.lastrlw < 0 := by omega
  have hlast : b.w.length - 1 < b.w.length := by omega
  have hne : b.lastrlw.toNat ≠ b.w.length - 1 := by omega
  constructor
  · intro hc
    unfold Set
    rw [if_neg hn]
    dsimp only
    rw [if_neg hinit, if_pos hcap, hall,
      getD_set_self b.w (b.w.length - 1) allones 0 hlast, if_pos rfl, if_pos hc,
      Nat.mod_eq_of_lt (show rlwK (b.w.getD b.lastrlw.toNat 0) + 1 < 2 ^ 32 by
        have := hc.2.2; omega),
      setl_setk_as_newRlw _ _ 0 (by have := hc.2.2; omega) (by norm_num),
      List.set_comm _ _ _ (Ne.symm hne), take_set_of_le _ _ _ _ (le_refl _)]
  · intro hc
    unfold Set
    rw [if_neg hn]
    dsimp only
    rw [if_neg hinit, if_pos hcap, hall,
      getD_set_self b.w (b.w.length - 1) allones 0 hlast, if_pos rfl, if_neg hc,
      show sub32 (rlwL (b.w.getD b.lastrlw.toNat 0)) 1
          = rlwL (b.w.getD b.lastrlw.toNat 0) - 1 from by
        have := rlwL_lt (b.w.getD b.lastrlw.toNat 0); unfold sub32; omega,
      setl_as_newRlw _ _ (by have := rlwL_lt (b.w.getD b.lastrlw.toNat 0); omega),
      List.set_set, List.set_comm _ _ _ (Ne.symm hne)]

/-- Witness for C7 at the source test's merge scenario (`TestBitmapSetAllOnesPrevRlw`):
an active RLW `(1, 1, 1)` whose only literal becomes all ones. -/
theorem all_ones_literal_absorption_witness :
    ((0 : Int) ≤ (⟨127, [newRlw true 1 1, 2 ^ 64 - 2], 0⟩ : Bitmap).lastrlw ∧
     (⟨127, [newRlw true 1 1, 2 ^ 64 - 2], 0⟩ : Bitmap).lastrlw.toNat
       < (⟨127, [newRlw true 1 1, 2 ^ 64 - 2], 0⟩ : Bitmap).w.length - 1 ∧
     ¬ (⟨127, [newRlw true 1 1, 2 ^ 64 - 2], 0⟩ : Bitmap).n > (127 : Int) ∧
     size ⟨127, [newRlw true 1 1, 2 ^ 64 - 2], 0⟩ > (127 : Int) ∧
     setbit ((⟨127, [newRlw true 1 1, 2 ^ 64 - 2], 0⟩ : Bitmap).w.getD
       ((⟨127, [newRlw true 1 1, 2 ^ 64 - 2], 0⟩ : Bitmap).w.length - 1) 0)
       (u64 ((127 : Int).tmod 64)) = allones) ∧
    Set ⟨127, [newRlw true 1 1, 2 ^ 64 - 2], 0⟩ 127 = (⟨128,
      ((⟨127, [newRlw true 1 1, 2 ^ 64 - 2], 0⟩ : Bitmap).w.set 0
        (newRlw (rlwB (newRlw true 1 1)) (rlwK (newRlw true 1 1) + 1) 0)).take 1,
      0⟩, none) :=
  ⟨⟨by decide, by decide, by decide, by decide, by decide⟩,
    (all_ones_literal_absorption ⟨127, [newRlw true 1 1, 2 ^ 64 - 2], 0⟩ 127 (by decide)
      (by decide) (by decide) (by decide) (by decide) (by decide)).1 (by decide)⟩

lemma maxUint31_eq : maxUint31 = 2 ^ 31 - 1 := by decide

/-- The bitmap holding one zero-run RLW with `m` one-bit literals: the state reached from
the empty bitmap by `Set 0, Set 64, ..., Set (64*(m-1))`. -/
def bLit (m : Nat) : Bitmap :=
  ⟨64 * (m : Int) - 63, newRlw false 0 m :: List.replicate m (2 ^ 63), 0⟩

lemma bLit_n (m : Nat) : (bLit m).n = 64 * (m : Int) - 63 := rfl

lemma bLit_w (m : Nat) : (bLit m).w = newRlw false 0 m :: List.replicate m (2 ^ 63) := rfl

lemma bLit_lastrlw (m : Nat) : (bLit m).lastrlw = 0 := rfl

lemma size_bLit (m : Nat) (h1 : 1 ≤ m) : size (bLit m) = 64 * (m : Int) := by
  unfold size
  rw [bLit_n]
  have ha : (0 : Int) ≤ 64 * (m : Int) - 63 := by omega
  have hb : (0 : Int) ≤ 64 := by norm_num
  simp only [Int.tdiv_eq_ediv ha hb, Int.tmod_eq_emod ha hb]
  rw [if_pos (show (64 * (m : Int) - 63) % 64 ≠ 0 from by omega)]
  omega

lemma set_bLit_step (m : Nat) (h1 : 1 ≤ m) (h2 : m + 1 ≤ 2 ^ 31 - 1) :
    Set (bLit m) (64 * (m : Int)) = (bLit (m + 1), none) := by
  have hm31 : m < 2 ^ 31 := by omega
  have hL : rlwL (newRlw false 0 m) = m := rlwL_newRlw false 0 m (by norm_num) hm31
  unfold Set
  rw [if_neg (show ¬ (bLit m).n > 64 * (m : Int) from by rw [bLit_n]; omega)]
  dsimp only
  rw [if_neg (show ¬ (bLit m).lastrlw < 0 from by rw [bLit_lastrlw]; omega)]
  rw [bLit_lastrlw, bLit_w]
  rw [show ((0 : Int)).toNat = 0 from rfl, List.getD_cons_zero]
  rw [show size (bLit m) = 64 * (m : Int) from size_bLit m h1]
  rw [if_neg (show ¬ 64 * (m : Int) > 64 * (m : Int) from by omega)]
  rw [show (64 * (m : Int) - 64 * (m : Int)).tdiv 64 = 0 from by
      rw [show 64 * (m : Int) - 64 * (m : Int) = 0 from by ring, Int.zero_tdiv]]
  rw [hL]
  rw [if_pos (show (0 : Int) = 0 ∧ (m + 1) % 2 ^ 32 ≤ maxUint31 from
      ⟨rfl, by rw [maxUint31_eq]; omega⟩)]
  rw [Nat.mod_eq_of_lt (show m + 1 < 2 ^ 32 from by omega)]
  rw [setl_as_newRlw _ _ (by omega)]
  rw [rlwB_newRlw false 0 m (by norm_num) hm31, rlwK_newRlw false 0 m (by norm_num) hm31]
  rw [show u64 ((64 * (m : Int)).tmod 64) = 0 from by
      rw [Int.tmod_eq_emod (by positivity) (by norm_num)]
      unfold u64
      omega]
  rw [show setbit 0 0 = 2 ^ 63 from by decide]
  rw [List.set_cons_zero, List.cons_append, ← List.replicate_succ']
  simp only [Prod.mk.injEq, Bitmap.mk.injEq, bLit, and_true, true_and]
  omega

lemma set_New_zero : Set New 0 = (bLit 1, none) := by decide

lemma reach_bLit (m : Nat) (h1 : 1 ≤ m) (h2 : m ≤ 2 ^ 31 - 1) : Reachable (bLit m) := by
  induction m with
  | zero => exact absurd h1 (by norm_num)
  | succ k ih =>
    cases Nat.eq_zero_or_pos k with
    | inl hz =>
      subst hz
      exact Reachable.step Reachable.empty set_New_zero
    | inr hpos => exact Reachable.step (ih hpos (by omega)) (set_bLit_step k hpos h2)

lemma set_bLit_overflow :
    Set (bLit (2 ^ 31 - 1)) (64 * 2 ^ 31) =
      (⟨64 * 2 ^ 31 + 1, 2 ^ 31 :: List.replicate (2 ^ 31) (2 ^ 63), 0⟩, none) := by
  unfold Set
  rw [if_neg (show ¬ (bLit (2 ^ 31 - 1)).n > 64 * 2 ^ 31 from by rw [bLit_n]; omega)]
  dsimp only
  rw [if_neg (show ¬ (bLit (2 ^ 31 - 1)).lastrlw < 0 from by rw [bLit_lastrlw]; omega)]
  rw [bLit_lastrlw, bLit_w]
  rw [show ((0 : Int)).toNat = 0 from rfl, List.getD_cons_zero]
  rw [show size (bLit (2 ^ 31 - 1)) = 64 * ((2 ^ 31 - 1 : Nat) : Int) from
    size_bLit (2 ^ 31 - 1) (by norm_num)]
  rw [if_neg (show ¬ 64 * ((2 ^ 31 - 1 : Nat) : Int) > 64 * 2 ^ 31 from by omega)]
  rw [show ((64 * 2 ^ 31 : Int) - 64 * ((2 ^ 31 - 1 : Nat) : Int)).tdiv 64 = 1 from by
    rw [show (64 * 2 ^ 31 : Int) - 64 * ((2 ^ 31 - 1 : Nat) : Int) = 64 from by omega]
    decide]
  rw [if_neg (show ¬ ((1 : Int) = 0 ∧
      (rlwL (newRlw false 0 (2 ^ 31 - 1)) + 1) % 2 ^ 32 ≤ maxUint31) from
    fun hc => absurd hc.1 (by norm_num))]
  rw [if_pos (show (0 : Int) < 1 ∧
      (rlwK (newRlw false 0 (2 ^ 31 - 1)) : Int) + 1 ≤ 2 ^ 32 - 1 from
    ⟨by norm_num, by rw [rlwK_newRlw false 0 _ (by norm_num) (by norm_num)]; norm_num⟩)]
  rw [show setl (setk (newRlw false 0 (2 ^ 31 - 1))
        ((rlwK (newRlw false 0 (2 ^ 31 - 1)) + u32 1) % 2 ^ 32))
      ((rlwL (newRlw false 0 (2 ^ 31 - 1)) + 1) % 2 ^ 32) = 2 ^ 31 from by decide]
  rw [show u64 (((64 * 2 ^ 31 : Int)).tmod 64) = 0 from by decide]
  rw [show setbit 0 0 = 2 ^ 63 from by decide]
  rw [List.set_cons_zero, List.cons_append]
  rw [show List.replicate (2 ^ 31 - 1) (2 ^ 63) ++ [(2 ^ 63 : Nat)]
      = List.replicate (2 ^ 31) (2 ^ 63) from by
    rw [← List.replicate_succ', show (2 ^ 31 - 1) + 1 = 2 ^ 31 from by norm_num]]

lemma walkIdx_replicate (c : Nat) (hc : rlwL c = 0) :
    ∀ m base fuel, m + 1 ≤ fuel →
      walkIdx fuel (List.replicate (m + 1) c) base = some (base + m) := by
  intro m
  induction m with
  | zero =>
    intro base fuel hf
    match fuel, hf with
    | f + 1, _ =>
      simp only [List.replicate_one, walkIdx, hc]
      rfl
  | succ k ih =>
    intro base fuel hf
    match fuel, hf with
    | f + 1, hf =>
      rw [show List.replicate (k + 1 + 1) c = c :: List.replicate (k + 1) c from rfl]
      simp only [walkIdx, hc, List.length_replicate]
      rw [if_neg (by omega), if_neg (by omega), List.drop_zero,
        ih (base + 1 + 0) f (by omega)]
      congr 1
      omega

lemma walkIdx_cons (fuel r : Nat) (rest : List Nat) (base : Nat) :
    walkIdx (fuel + 1) (r :: rest) base =
      (if rest.length = rlwL r then some base
       else if rest.length < rlwL r then none
       else walkIdx fuel (rest.drop (rlwL r)) (base + 1 + rlwL r)) := rfl

lemma lastIdx_bad :
    lastIdx (2 ^ 31 :: List.replicate (2 ^ 31) (2 ^ 63)) = some (2 ^ 31) := by
  unfold lastIdx
  rw [show (2 ^ 31 :: List.replicate (2 ^ 31) (2 ^ 63) : List Nat).length
    = 2 ^ 31 + 1 from by rw [List.length_cons, List.length_replicate]]
  rw [walkIdx_cons]
  simp only [show rlwL (2 ^ 31) = 0 from by decide, List.length_replicate]
  rw [if_neg (by norm_num), if_neg (by norm_num), List.drop_zero]
  rw [show List.replicate (2 ^ 31) (2 ^ 63)
      = List.replicate ((2 ^ 31 - 1) + 1) (2 ^ 63) from by
    rw [show (2 ^ 31 - 1) + 1 = 2 ^ 31 from by norm_num]]
  rw [walkIdx_replicate (2 ^ 63) (by decide) (2 ^ 31 - 1) (0 + 1 + 0) (2 ^ 31)
    (by norm_num)]
  congr 1

/-- C4: the block-structure invariant fails on a reachable bitmap.  After `Set 0, Set 64,
..., Set (64*(2^31-2))` the active RLW holds `2^31 - 1` literals; one more `Set` with a
one-chunk gap takes the `k > 0` branch, which increments the literal count without the
31-bit overflow guard: the increment wraps into the run-count field, leaving the active
RLW with `literal_count = 0` while `2^31` literal words follow it.  Traversing the words
by `1 + literal_count` steps from index 0 then walks through every literal as if it were
an RLW and lands on index `2^31`, not on the active index 0. -/
theorem block_traversal_violated :
    Reachable ⟨64 * 2 ^ 31 + 1, 2 ^ 31 :: List.replicate (2 ^ 31) (2 ^ 63), 0⟩ ∧
    lastIdx (2 ^ 31 :: List.replicate (2 ^ 31) (2 ^ 63)) = some (2 ^ 31) ∧
    (⟨64 * 2 ^ 31 + 1, 2 ^ 31 :: List.replicate (2 ^ 31) (2 ^ 63), 0⟩ : Bitmap).lastrlw.toNat
      ≠ 2 ^ 31 :=
  ⟨Reachable.step (reach_bLit (2 ^ 31 - 1) (by norm_num) (le_refl _)) set_bLit_overflow,
    lastIdx_bad, by decide⟩

/-- C5: on the same reachable bitmap, extending the active RLW would exceed the
`literal_count` bound (`2^31 - 1 + 1 > maxUint31`), yet `Set` does not start a new RLW
block: the active index is unchanged and the active RLW is mutated in place, its
literal-count increment wrapping into the run-count field (`run_count` becomes 1 and
`literal_count` 0 even though a literal word is appended). -/
theorem l_overflow_extends_active_rlw :
    Reachable (bLit (2 ^ 31 - 1)) ∧
    maxUint31 < rlwL ((bLit (2 ^ 31 - 1)).w.getD 0 0) + 1 ∧
    (Set (bLit (2 ^ 31 - 1)) (64 * 2 ^ 31)).2 = none ∧
    (Set (bLit (2 ^ 31 - 1)) (64 * 2 ^ 31)).1.lastrlw = (bLit (2 ^ 31 - 1)).lastrlw ∧
    (Set (bLit (2 ^ 31 - 1)) (64 * 2 ^ 31)).1.w.getD 0 0 = 2 ^ 31 ∧
    rlwK ((Set (bLit (2 ^ 31 - 1)) (64 * 2 ^ 31)).1.w.getD 0 0) = 1 ∧
    rlwL ((Set (bLit (2 ^ 31 - 1)) (64 * 2 ^ 31)).1.w.getD 0 0) = 0 := by
  refine ⟨reach_bLit (2 ^ 31 - 1) (by norm_num) (le_refl _), ?_, ?_, ?_, ?_, ?_, ?_⟩
  · rw [bLit_w, List.getD_cons_zero, rlwL_newRlw false 0 _ (by norm_num) (by norm_num),
      maxUint31_eq]
    omega
  · rw [set_bLit_overflow]
  · rw [set_bLit_overflow, bLit_lastrlw]
  · rw [set_bLit_overflow, List.getD_cons_zero]
  · rw [set_bLit_overflow, List.getD_cons_zero]
    decide
  · rw [set_bLit_overflow, List.getD_cons_zero]
    decide

end Ewah
